import Mathlib

/-!
Shallow embedding of `include/fiducials/calib/Calibrator.h` from the
Calibu repository (the online camera-calibration engine and the
`calibu` camera/rig abstraction), together with proofs checking the
natural-language specification's claims against it.

Scalars are modelled as rationals (`ℚ`): every algebraic identity the
claims state holds field-theoretically, independent of floating-point
rounding.  C++ heap addresses of parameter blocks are modelled as the
symbolic addresses `ParamAddr` (entries are heap-indirected via
`unique_ptr`, so the address of entry `i` is stable and uniquely
determined by its index).
-/

namespace Calibu

/-- 2-vector over ℚ (Eigen::Vector2d / Matrix<T,2,1>). -/
structure Vec2 where
  x : ℚ
  y : ℚ
deriving DecidableEq, Repr

/-- 3-vector over ℚ (Eigen::Vector3d / Matrix<T,3,1>). -/
structure Vec3 where
  x : ℚ
  y : ℚ
  z : ℚ
deriving DecidableEq, Repr

def Vec2.sub (a b : Vec2) : Vec2 := ⟨a.x - b.x, a.y - b.y⟩

def Vec2.zero : Vec2 := ⟨0, 0⟩

def Vec3.add (a b : Vec3) : Vec3 := ⟨a.x + b.x, a.y + b.y, a.z + b.z⟩

def Vec3.smul (c : ℚ) (v : Vec3) : Vec3 := ⟨c * v.x, c * v.y, c * v.z⟩

/-- 3x3 matrix over ℚ (rotation part of a rigid transform). -/
structure Mat3 where
  m00 : ℚ
  m01 : ℚ
  m02 : ℚ
  m10 : ℚ
  m11 : ℚ
  m12 : ℚ
  m20 : ℚ
  m21 : ℚ
  m22 : ℚ
deriving DecidableEq, Repr

def Mat3.mulVec (M : Mat3) (v : Vec3) : Vec3 :=
  ⟨M.m00 * v.x + M.m01 * v.y + M.m02 * v.z,
   M.m10 * v.x + M.m11 * v.y + M.m12 * v.z,
   M.m20 * v.x + M.m21 * v.y + M.m22 * v.z⟩

def Mat3.one : Mat3 := ⟨1, 0, 0, 0, 1, 0, 0, 0, 1⟩

/-- A rigid transform (Sophus::SE3d), modelled by its rotation matrix and
translation.  The C++ 7-parameter quaternion encoding only matters for
the solver's parameter-block size (7), which is kept separately. -/
structure SE3 where
  R : Mat3
  t : Vec3
deriving DecidableEq, Repr

/-- Action of a rigid transform on a point: `T * p = R p + t`. -/
def SE3.act (T : SE3) (p : Vec3) : Vec3 := Vec3.add (T.R.mulVec p) T.t

/-- Identity transform (the default-constructed Sophus::SE3d). -/
def SE3.one : SE3 := ⟨Mat3.one, Vec3.add ⟨0, 0, 0⟩ ⟨0, 0, 0⟩⟩

/-- 2x3 matrix over ℚ (projection Jacobian). -/
structure Mat23 where
  a00 : ℚ
  a01 : ℚ
  a02 : ℚ
  a10 : ℚ
  a11 : ℚ
  a12 : ℚ
deriving DecidableEq, Repr

def Mat23.mulMat3 (J : Mat23) (M : Mat3) : Mat23 :=
  ⟨J.a00 * M.m00 + J.a01 * M.m10 + J.a02 * M.m20,
   J.a00 * M.m01 + J.a01 * M.m11 + J.a02 * M.m21,
   J.a00 * M.m02 + J.a01 * M.m12 + J.a02 * M.m22,
   J.a10 * M.m00 + J.a11 * M.m10 + J.a12 * M.m20,
   J.a10 * M.m01 + J.a11 * M.m11 + J.a12 * M.m21,
   J.a10 * M.m02 + J.a11 * M.m12 + J.a12 * M.m22⟩

def Mat23.mulVec (J : Mat23) (v : Vec3) : Vec2 :=
  ⟨J.a00 * v.x + J.a01 * v.y + J.a02 * v.z,
   J.a10 * v.x + J.a11 * v.y + J.a12 * v.z⟩

/-- 2x4 matrix over ℚ (the Transfer3d Jacobian: 3 ray columns plus one
inverse-depth column). -/
structure Mat24 where
  b00 : ℚ
  b01 : ℚ
  b02 : ℚ
  b03 : ℚ
  b10 : ℚ
  b11 : ℚ
  b12 : ℚ
  b13 : ℚ
deriving DecidableEq, Repr

/-- Assemble a 2x4 matrix from its 2x3 top-left block and its last column
(the `topLeftCorner<2,3>() = ...; col(3) = ...` writes in the source). -/
def Mat24.ofBlocks (A : Mat23) (c : Vec2) : Mat24 :=
  ⟨A.a00, A.a01, A.a02, c.x, A.a10, A.a11, A.a12, c.y⟩

def Mat24.topLeft (M : Mat24) : Mat23 :=
  ⟨M.b00, M.b01, M.b02, M.b10, M.b11, M.b12⟩

def Mat24.col3 (M : Mat24) : Vec2 := ⟨M.b03, M.b13⟩

/-! ### The calibu camera capability (CRTP base `calibu::Camera`)

A camera model variant supplies `Project`, `Unproject` and the
projection Jacobian (the pure-virtual `...Impl` methods of the derived
class); the base class derives `Transfer3d` and `dTransfer3d_dray`
from them.  The variant is modelled as a structure of those three
capabilities. -/

structure Camera where
  project : Vec3 → Vec2
  unproject : Vec2 → Vec3
  dProject_dray : Vec3 → Mat23

/-- `calibu::Camera::Transfer3d`: dehomogenize the ray through the rigid
transform and inverse depth, then project. -/
def Camera.Transfer3d (cam : Camera) (t_ba : SE3) (ray : Vec3) (rho : ℚ) : Vec2 :=
  let ray_dehomogenized := Vec3.add (t_ba.R.mulVec ray) (Vec3.smul rho t_ba.t)
  cam.project ray_dehomogenized

/-- `calibu::Camera::dTransfer3d_dray`: 2x4 Jacobian assembled from the
projection Jacobian chained with the rotation, and the inverse-depth
column from the translation. -/
def Camera.dTransfer3d_dray (cam : Camera) (t_ba : SE3) (ray : Vec3) (rho : ℚ) : Mat24 :=
  let rot_matrix := t_ba.R
  let ray_dehomogenized := Vec3.add (rot_matrix.mulVec ray) (Vec3.smul rho t_ba.t)
  let dproject_dray := cam.dProject_dray ray_dehomogenized
  Mat24.ofBlocks (dproject_dray.mulMat3 rot_matrix) (dproject_dray.mulVec t_ba.t)

/-! ### The calibu Rig -/

/-- `calibu::Rig`: parallel growable collections of cameras and their
camera-to-rig mounting poses. -/
structure Rig where
  cameras_ : List Camera
  t_wc_ : List SE3

/-- `Rig::AddCamera` (shared-pointer overload): push the camera and its
mounting pose. -/
def Rig.AddCamera (r : Rig) (cam : Camera) (t_wc : SE3) : Rig :=
  { cameras_ := r.cameras_ ++ [cam], t_wc_ := r.t_wc_ ++ [t_wc] }

/-- `Rig::AddCamera` (raw-pointer overload): wraps the raw pointer into a
shared pointer and pushes both entries; observationally the same append. -/
def Rig.AddCameraRaw (r : Rig) (cam : Camera) (t_wc : SE3) : Rig :=
  { cameras_ := r.cameras_ ++ [cam], t_wc_ := r.t_wc_ ++ [t_wc] }

/-- One `AddCamera` call, tagged with which of the two overloads was used. -/
inductive RigCall where
  | viaPtr (cam : Camera) (t_wc : SE3)
  | viaRaw (cam : Camera) (t_wc : SE3)

def RigCall.cam : RigCall → Camera
  | .viaPtr c _ => c
  | .viaRaw c _ => c

def RigCall.pose : RigCall → SE3
  | .viaPtr _ t => t
  | .viaRaw _ t => t

def Rig.applyCall (r : Rig) : RigCall → Rig
  | .viaPtr cam t => r.AddCamera cam t
  | .viaRaw cam t => r.AddCameraRaw cam t

def Rig.runCalls (r : Rig) : List RigCall → Rig
  | [] => r
  | c :: cs => (r.applyCall c).runCalls cs

/-- The empty rig (default-constructed `calibu::Rig`). -/
def Rig.empty : Rig := ⟨[], []⟩

/-! ### The fiducials reprojection cost

`ReprojectionCost<ProjModel>::Evaluate` computes
`r = ProjModel::Map(Project(T_ck * (T_kw * Pw)), camparam) - pc`
where `Project` is the dehomogenization of a camera-frame point and
`ProjModel::Map` applies the lens model with the intrinsics vector
`camparam`.  The lens model is abstract (a template parameter in the
source), modelled as a structure holding its `Map` and its parameter
count `NUM_PARAMS`. -/

/-- Dehomogenization `Project : (x, y, z) ↦ (x/z, y/z)` used by the
reprojection chain before applying the lens model. -/
def Project (P : Vec3) : Vec2 := ⟨P.x / P.z, P.y / P.z⟩

/-- Abstract lens model (the `ProjModel` template parameter): its
intrinsics-dependent pixel map and its intrinsics dimension. -/
structure ProjModel where
  numParams : Nat
  map : Vec2 → List ℚ → Vec2

/-- Projection of a camera-frame 3D point through the camera model with
the given intrinsics: dehomogenize, then apply the lens map.  This is
the composite the spec calls `Project(·, intrinsics)`. -/
def ProjModel.projectPoint (pm : ProjModel) (P : Vec3) (camparam : List ℚ) : Vec2 :=
  pm.map (Project P) camparam

/-- The immutable data of a `ReprojectionCost`: the fixed 3D landmark and
the observed pixel. -/
structure ReprojectionCost where
  m_Pw : Vec3
  m_pc : Vec2
deriving DecidableEq, Repr

/-- `ReprojectionCost::Evaluate` on parameter blocks `(T_kw, T_ck,
camparam)`: transform the landmark by the keyframe pose, then by the
camera extrinsic, project through the lens model, subtract the
observed pixel. -/
def ReprojectionCost.Evaluate (rc : ReprojectionCost) (pm : ProjModel)
    (T_kw T_ck : SE3) (camparam : List ℚ) : Vec2 :=
  let Pc := T_ck.act (T_kw.act rc.m_Pw)
  let pc := pm.map (Project Pc) camparam
  Vec2.sub pc rc.m_pc

/-! ### The fiducials Calibrator (online calibration engine)

Heap addresses of parameter blocks (`T_kw.data()`, `T_ck.data()`,
`camera.data()`) are modelled symbolically: each heap-indirected entry
keeps a stable address for the engine's lifetime, so the address is
identified with the entry's index and role. -/

/-- Symbolic address of a solver parameter block. -/
inductive ParamAddr where
  | framePose (i : Nat)
  | camExtrinsic (i : Nat)
  | camIntrinsics (i : Nat)
deriving DecidableEq, Repr

/-- `CameraAndPose`: a camera's intrinsics vector together with its
extrinsic pose `T_ck`. -/
structure CameraAndPose where
  camera : List ℚ
  T_ck : SE3
deriving DecidableEq, Repr

/-- `CostFunctionAndParams` as stored in `m_costs`: the reprojection data
plus the ordered parameter-block addresses and the (null) loss. -/
structure CostFunctionAndParams where
  cost : ReprojectionCost
  params : List ParamAddr
  loss : Option Unit
deriving DecidableEq, Repr

/-- The engine's shared mutable state: frames (`m_T_kw`), cameras
(`m_camera`) and residuals (`m_costs`). -/
structure Calibrator where
  m_T_kw : List SE3
  m_camera : List CameraAndPose
  m_costs : List CostFunctionAndParams
deriving DecidableEq, Repr

/-- A freshly constructed Calibrator: all three collections empty. -/
def Calibrator.init : Calibrator := ⟨[], [], []⟩

/-- `Calibrator::Clear`: discard all frames, cameras and residuals. -/
def Calibrator.Clear (_ : Calibrator) : Calibrator := ⟨[], [], []⟩

/-- `Calibrator::AddCamera`: returns the current camera count as the id
and appends the new entry. -/
def Calibrator.AddCamera (s : Calibrator) (cam : List ℚ) (T_ck : SE3) :
    Nat × Calibrator :=
  (s.m_camera.length, { s with m_camera := s.m_camera ++ [⟨cam, T_ck⟩] })

/-- `Calibrator::AddFrame`: returns the current frame count as the id and
appends the new entry. -/
def Calibrator.AddFrame (s : Calibrator) (T_kw : SE3) : Nat × Calibrator :=
  (s.m_T_kw.length, { s with m_T_kw := s.m_T_kw ++ [T_kw] })

/-- The cost record `AddObservation` constructs: landmark and pixel, the
three parameter-block addresses in order (frame pose, camera extrinsic,
camera intrinsics), and a null loss. -/
def mkObservationCost (frame camera : Nat) (P_c : Vec3) (p_c : Vec2) :
    CostFunctionAndParams :=
  { cost := ⟨P_c, p_c⟩,
    params := [ParamAddr.framePose frame, ParamAddr.camExtrinsic camera,
               ParamAddr.camIntrinsics camera],
    loss := none }

/-- `Calibrator::AddObservation`: append the constructed cost to
`m_costs` (performed with the update mutex held; see
`AddObservationTrace`). -/
def Calibrator.AddObservation (s : Calibrator) (frame camera : Nat)
    (P_c : Vec3) (p_c : Vec2) : Calibrator :=
  { s with m_costs := s.m_costs ++ [mkObservationCost frame camera P_c p_c] }

def Calibrator.NumFrames (s : Calibrator) : Nat := s.m_T_kw.length

def Calibrator.NumCameras (s : Calibrator) : Nat := s.m_camera.length

/-- `Calibrator::GetFrame` reads the stored frame pose; the C++ function
returns a reference to it, so writes through the result are modelled by
`WriteFrameRef` below. -/
def Calibrator.GetFrame (s : Calibrator) (i : Nat) : SE3 :=
  s.m_T_kw.getD i SE3.one

/-- `Calibrator::GetCamera` returns the stored entry BY VALUE (a copy). -/
def Calibrator.GetCamera (s : Calibrator) (i : Nat) : CameraAndPose :=
  s.m_camera.getD i ⟨[], SE3.one⟩

/-- A write through the reference returned by `GetFrame i`: it aliases
the engine's stored pose, so the store is updated in place. -/
def Calibrator.WriteFrameRef (s : Calibrator) (i : Nat) (v : SE3) : Calibrator :=
  { s with m_T_kw := s.m_T_kw.set i v }

/-- A caller mutating the value returned by `GetCamera i` with `f`: the
mutation acts on the caller's local copy; the engine state is passed
through untouched (there is no write-back channel). -/
def Calibrator.MutateCameraCopy (s : Calibrator) (i : Nat)
    (f : CameraAndPose → CameraAndPose) : CameraAndPose × Calibrator :=
  (f (s.GetCamera i), s)

/-- Events visible on the engine's single update mutex. -/
inductive MutexEvent where
  | lock
  | appendCost (c : CostFunctionAndParams)
  | unlock
deriving DecidableEq, Repr

/-- The event trace of one `AddObservation` call: acquire the mutex,
construct-and-append the cost, release the mutex. -/
def AddObservationTrace (frame camera : Nat) (P_c : Vec3) (p_c : Vec2) :
    List MutexEvent :=
  [MutexEvent.lock,
   MutexEvent.appendCost (mkObservationCost frame camera P_c p_c),
   MutexEvent.unlock]

/-- A public mutator call on the engine. -/
inductive CalibOp where
  | addFrame (T : SE3)
  | addCamera (cam : List ℚ) (T : SE3)
  | addObservation (f c : Nat) (P : Vec3) (p : Vec2)
  | clear

def CalibOp.apply : CalibOp → Calibrator → Calibrator
  | .addFrame T, s => (s.AddFrame T).2
  | .addCamera cam T, s => (s.AddCamera cam T).2
  | .addObservation f c P p, s => s.AddObservation f c P p
  | .clear, s => s.Clear

/-! ### The background solve loop (`Calibrator::SolveThread`)

Each iteration builds a fresh ceres problem from the current state
under the mutex, then (outside the lock) invokes the external solver
when the problem has residuals.  The solver is out of scope and
appears as an opaque function; the gauge theorem only assumes of it
the solver-boundary contract (constant parameter blocks are not
modified, and the solver writes parameter values in place without
restructuring the collections). -/

/-- One registered parameter block: its address, its size in doubles,
and whether it carries the SE3 local parameterization. -/
structure ParamBlock where
  addr : ParamAddr
  size : Nat
  manifold : Bool
deriving DecidableEq, Repr

/-- The ceres problem built by one loop iteration. -/
structure Problem where
  blocks : List ParamBlock
  constants : List ParamAddr
  residualBlocks : List CostFunctionAndParams
deriving DecidableEq, Repr

/-- The problem-building phase of `SolveThread` (performed under the
mutex): register every camera extrinsic and every frame pose as a
7-dimensional manifold block, mark camera 0's extrinsic constant, and
add every stored cost as a residual block. -/
def Calibrator.BuildProblem (s : Calibrator) : Problem :=
  { blocks :=
      (List.range s.m_camera.length).map
          (fun c => ⟨ParamAddr.camExtrinsic c, 7, true⟩)
        ++ (List.range s.m_T_kw.length).map
          (fun p => ⟨ParamAddr.framePose p, 7, true⟩),
    constants :=
      (List.range s.m_camera.length).filterMap
        (fun c => if c = 0 then some (ParamAddr.camExtrinsic c) else none),
    residualBlocks := s.m_costs }

/-- `ceres::Problem::NumResiduals`: total residual dimension; each
reprojection residual block contributes 2. -/
def Problem.NumResiduals (p : Problem) : Nat := 2 * p.residualBlocks.length

/-- The current value stored at a parameter-block address. -/
inductive ParamValue where
  | pose (T : SE3)
  | intrinsics (v : List ℚ)
deriving DecidableEq, Repr

/-- Dereference a symbolic parameter-block address in the engine state. -/
def Calibrator.readAddr (s : Calibrator) : ParamAddr → Option ParamValue
  | .framePose i => (s.m_T_kw.get? i).map ParamValue.pose
  | .camExtrinsic i => (s.m_camera.get? i).map (fun cp => ParamValue.pose cp.T_ck)
  | .camIntrinsics i => (s.m_camera.get? i).map (fun cp => ParamValue.intrinsics cp.camera)

/-- One iteration of the solve loop, with an opaquely modelled solver:
build the problem, and call the solver exactly when the problem has at
least one residual.  The Boolean records whether the solver was
invoked. -/
def LoopIter (solve : Problem → Calibrator → Calibrator) (s : Calibrator) :
    Calibrator × Bool :=
  let p := s.BuildProblem
  if 0 < p.NumResiduals then (solve p s, true) else (s, false)

/-- `n` iterations of the solve loop. -/
def RunLoop (solve : Problem → Calibrator → Calibrator) : Nat → Calibrator → Calibrator
  | 0, s => s
  | n + 1, s => RunLoop solve n (LoopIter solve s).1

/-- The solver-boundary contract assumed of the opaque solver: it only
writes parameter values in place (collection sizes are untouched) and
leaves every parameter block marked constant in the problem it was
given at its old value. -/
def SolverContract (solve : Problem → Calibrator → Calibrator) : Prop :=
  ∀ (p : Problem) (st : Calibrator),
    (solve p st).m_camera.length = st.m_camera.length ∧
    (solve p st).m_T_kw.length = st.m_T_kw.length ∧
    ∀ a ∈ p.constants, (solve p st).readAddr a = st.readAddr a

/-- One iteration of the solve loop with a fallible solver (the
`try`/`catch` in `SolveThread`): a solver failure is caught, the error
text is sent to the diagnostic sink, and the iteration completes
normally with the state it had; on success the solver's summary line
is logged.  The second component is the list of diagnostic lines the
iteration emitted. -/
def LoopIterE (solveE : Problem → Calibrator → Except String Calibrator)
    (s : Calibrator) : Calibrator × List String :=
  let p := s.BuildProblem
  if 0 < p.NumResiduals then
    match solveE p s with
    | .ok s2 => (s2, [])
    | .error e => (s, [e])
  else (s, [])

/-- `n` iterations of the fallible-solver loop, accumulating the
diagnostic lines.  The return type has no error component: whatever the
solver does, the loop itself always proceeds. -/
def RunLoopE (solveE : Problem → Calibrator → Except String Calibrator) :
    Nat → Calibrator → Calibrator × List String
  | 0, s => (s, [])
  | n + 1, s =>
    let r := LoopIterE solveE s
    let r2 := RunLoopE solveE n r.1
    (r2.1, r.2 ++ r2.2)

/-! ### Call sequences for the id/count claims -/

/-- One call to `AddFrame` or `AddCamera`. -/
inductive AddCall where
  | frame (T : SE3)
  | camera (cam : List ℚ) (T : SE3)

def Calibrator.applyAdd (s : Calibrator) : AddCall → Calibrator
  | .frame T => (s.AddFrame T).2
  | .camera cam T => (s.AddCamera cam T).2

def Calibrator.runAdds (s : Calibrator) : List AddCall → Calibrator
  | [] => s
  | c :: cs => (s.applyAdd c).runAdds cs

/-- The ids returned by the `AddFrame` calls of a call sequence, in call
order. -/
def Calibrator.frameIds (s : Calibrator) : List AddCall → List Nat
  | [] => []
  | .frame T :: cs => (s.AddFrame T).1 :: (s.AddFrame T).2.frameIds cs
  | .camera cam T :: cs => (s.applyAdd (.camera cam T)).frameIds cs

/-- The ids returned by the `AddCamera` calls of a call sequence, in
call order. -/
def Calibrator.camIds (s : Calibrator) : List AddCall → List Nat
  | [] => []
  | .camera cam T :: cs => (s.AddCamera cam T).1 :: (s.AddCamera cam T).2.camIds cs
  | .frame T :: cs => (s.applyAdd (.frame T)).camIds cs

def countFrameCalls (cs : List AddCall) : Nat :=
  cs.countP (fun c => match c with | .frame _ => true | .camera _ _ => false)

def countCameraCalls (cs : List AddCall) : Nat :=
  cs.countP (fun c => match c with | .frame _ => false | .camera _ _ => true)

/-! ## Theorems -/

/-- C1: the reprojection residual evaluation returns exactly
`Project(T_ck * (T_kw * Pw), intrinsics) - pc` for every landmark,
observed pixel and parameter-block values; in particular, when the
observed pixel equals the noiseless projection of the landmark under
the current parameter values, the residual is `[0, 0]`. -/
theorem reprojection_residual_formula (rc : ReprojectionCost) (pm : ProjModel)
    (T_kw T_ck : SE3) (camparam : List ℚ) :
    rc.Evaluate pm T_kw T_ck camparam =
      Vec2.sub (pm.projectPoint (T_ck.act (T_kw.act rc.m_Pw)) camparam) rc.m_pc ∧
    (rc.m_pc = pm.projectPoint (T_ck.act (T_kw.act rc.m_Pw)) camparam →
      rc.Evaluate pm T_kw T_ck camparam = Vec2.zero) := by
  constructor
  · rfl
  · intro h
    show Vec2.sub (pm.map (Project (T_ck.act (T_kw.act rc.m_Pw))) camparam) rc.m_pc
          = Vec2.zero
    rw [h]
    simp [ProjModel.projectPoint, Vec2.sub, Vec2.zero]

/-- Witness for C1 at a concrete input: identity lens, identity poses,
landmark `(1, 2, 1)` observed exactly at its projection `(1, 2)`. -/
theorem reprojection_residual_formula_witness :
    ReprojectionCost.Evaluate ⟨⟨1, 2, 1⟩, ⟨1, 2⟩⟩ ⟨0, fun v _ => v⟩ SE3.one SE3.one []
      = Vec2.zero :=
  (reprojection_residual_formula ⟨⟨1, 2, 1⟩, ⟨1, 2⟩⟩ ⟨0, fun v _ => v⟩
    SE3.one SE3.one []).2 (by
      norm_num [ProjModel.projectPoint, Project, SE3.one, SE3.act, Mat3.one,
        Mat3.mulVec, Vec3.add])

/-- C7: `Transfer3d(T_ba, ray, rho)` projects `R(T_ba) * ray + rho *
t(T_ba)` through the same camera model's projection, with no
intermediate 3D point beyond this transformed ray. -/
theorem Transfer3d_projects_transformed_ray (cam : Camera) (t_ba : SE3)
    (ray : Vec3) (rho : ℚ) :
    cam.Transfer3d t_ba ray rho =
      cam.project (Vec3.add (t_ba.R.mulVec ray) (Vec3.smul rho t_ba.t)) := rfl

/-- C8: the 2x4 Jacobian of `Transfer3d` has its left 2x3 block equal to
`dProject_dray(R * ray + rho * t) * R` and its fourth column equal to
`dProject_dray(R * ray + rho * t) * t`. -/
theorem dTransfer3d_dray_block_structure (cam : Camera) (t_ba : SE3)
    (ray : Vec3) (rho : ℚ) :
    (cam.dTransfer3d_dray t_ba ray rho).topLeft =
      (cam.dProject_dray (Vec3.add (t_ba.R.mulVec ray) (Vec3.smul rho t_ba.t))).mulMat3
        t_ba.R ∧
    (cam.dTransfer3d_dray t_ba ray rho).col3 =
      (cam.dProject_dray (Vec3.add (t_ba.R.mulVec ray) (Vec3.smul rho t_ba.t))).mulVec
        t_ba.t :=
  ⟨rfl, rfl⟩

/-- C3: `AddObservation` on valid ids appends exactly one residual whose
parameter blocks are, in order, the frame pose address, the camera
extrinsic address and the camera intrinsics address; the
construct-and-append happens between the lock and the unlock of the
single update mutex; frames and cameras are untouched; the appended
residual is unmodified by every further mutator (any later `m_costs`
still extends the appended list) and only `Clear` discards it. -/
theorem AddObservation_appends_one_residual (s : Calibrator)
    (frame camera : Nat) (P_c : Vec3) (p_c : Vec2)
    (hf : frame < s.m_T_kw.length) (hc : camera < s.m_camera.length) :
    (s.AddObservation frame camera P_c p_c).m_costs
        = s.m_costs ++ [mkObservationCost frame camera P_c p_c] ∧
    (mkObservationCost frame camera P_c p_c).params
        = [ParamAddr.framePose frame, ParamAddr.camExtrinsic camera,
           ParamAddr.camIntrinsics camera] ∧
    AddObservationTrace frame camera P_c p_c
        = [MutexEvent.lock,
           MutexEvent.appendCost (mkObservationCost frame camera P_c p_c),
           MutexEvent.unlock] ∧
    (s.AddObservation frame camera P_c p_c).m_T_kw = s.m_T_kw ∧
    (s.AddObservation frame camera P_c p_c).m_camera = s.m_camera ∧
    (∀ op : CalibOp, op ≠ CalibOp.clear →
      ∃ t, (op.apply (s.AddObservation frame camera P_c p_c)).m_costs
            = (s.m_costs ++ [mkObservationCost frame camera P_c p_c]) ++ t) ∧
    ((s.AddObservation frame camera P_c p_c).Clear).m_costs = [] := by
  refine ⟨rfl, rfl, rfl, rfl, rfl, ?_, rfl⟩
  intro op hop
  cases op with
  | addFrame T =>
      exact ⟨[], by simp [CalibOp.apply, Calibrator.AddFrame, Calibrator.AddObservation]⟩
  | addCamera cam T =>
      exact ⟨[], by simp [CalibOp.apply, Calibrator.AddCamera, Calibrator.AddObservation]⟩
  | addObservation f c P p =>
      exact ⟨[mkObservationCost f c P p],
        by simp [CalibOp.apply, Calibrator.AddObservation]⟩
  | clear => exact absurd rfl hop

/-- Witness for C3: one frame and one camera, observation on ids (0, 0). -/
theorem AddObservation_appends_one_residual_witness :
    (((Calibrator.init.AddFrame SE3.one).2.AddCamera [] SE3.one).2.AddObservation
        0 0 ⟨0, 0, 1⟩ ⟨0, 0⟩).m_costs
      = ((Calibrator.init.AddFrame SE3.one).2.AddCamera [] SE3.one).2.m_costs
          ++ [mkObservationCost 0 0 ⟨0, 0, 1⟩ ⟨0, 0⟩] :=
  (AddObservation_appends_one_residual
    ((Calibrator.init.AddFrame SE3.one).2.AddCamera [] SE3.one).2
    0 0 ⟨0, 0, 1⟩ ⟨0, 0⟩ (by decide) (by decide)).1

/-- C5: in each background-loop iteration, the solver is invoked exactly
when the freshly built problem has at least one residual; an iteration
whose problem has zero residuals skips the solve and leaves the whole
engine state unchanged. -/
theorem solve_skipped_iff_no_residuals
    (solve : Problem → Calibrator → Calibrator) (s : Calibrator) :
    ((LoopIter solve s).2 = true ↔ s.BuildProblem.residualBlocks ≠ []) ∧
    (s.BuildProblem.residualBlocks = [] → LoopIter solve s = (s, false)) := by
  have hiff : (0 < s.BuildProblem.NumResiduals) ↔
      s.BuildProblem.residualBlocks ≠ [] := by
    rw [Problem.NumResiduals]
    constructor
    · intro h hnil
      rw [hnil] at h
      simp at h
    · intro h
      have hlen : 0 < s.BuildProblem.residualBlocks.length := List.length_pos.mpr h
      omega
  constructor
  · by_cases h : 0 < s.BuildProblem.NumResiduals
    · simp only [LoopIter, if_pos h]
      exact ⟨fun _ => hiff.mp h, fun _ => trivial⟩
    · simp only [LoopIter, if_neg h]
      constructor
      · intro hfalse
        exact absurd hfalse (by simp)
      · intro hne
        exact absurd (hiff.mpr hne) h
  · intro hnil
    have h : ¬ 0 < s.BuildProblem.NumResiduals := fun h => (hiff.mp h) hnil
    simp only [LoopIter, if_neg h]

/-- Witness for C5: an engine with no observations builds a
zero-residual problem, and the iteration returns the state unchanged
with the solver not invoked. -/
theorem solve_skipped_iff_no_residuals_witness :
    LoopIter (fun _ st => st) Calibrator.init = (Calibrator.init, false) :=
  (solve_skipped_iff_no_residuals (fun _ st => st) Calibrator.init).2 rfl

/-- C6: a failure raised by the solve call is caught inside the loop
iteration, reported to the diagnostic sink, and the loop proceeds: the
iteration returns normally with the pre-solve state and the error line;
running any number of iterations of the loop is a total function whose
log grows by one line per failing iteration, so no solver-time error
propagates out of the background loop. -/
theorem solver_failure_contained
    (solveE : Problem → Calibrator → Except String Calibrator)
    (s : Calibrator) (e : String)
    (hall : ∀ p st, solveE p st = Except.error e)
    (hres : s.BuildProblem.residualBlocks ≠ []) :
    LoopIterE solveE s = (s, [e]) ∧
    ∀ n, RunLoopE solveE n s = (s, List.replicate n e) := by
  have hlen : 0 < s.BuildProblem.residualBlocks.length := List.length_pos.mpr hres
  have hpos : 0 < s.BuildProblem.NumResiduals := by
    rw [Problem.NumResiduals]; omega
  have h1 : LoopIterE solveE s = (s, [e]) := by
    simp only [LoopIterE, if_pos hpos, hall]
  refine ⟨h1, ?_⟩
  intro n
  induction n with
  | zero => rfl
  | succ n ih =>
      simp only [RunLoopE, h1, ih, List.replicate_succ, List.singleton_append]

/-- Witness for C6: a solver that always fails, on an engine holding one
observation; two loop iterations log the error twice and leave the
state intact. -/
theorem solver_failure_contained_witness :
    RunLoopE (fun _ _ => Except.error "solver failed") 2
        (Calibrator.init.AddObservation 0 0 ⟨0, 0, 1⟩ ⟨0, 0⟩)
      = (Calibrator.init.AddObservation 0 0 ⟨0, 0, 1⟩ ⟨0, 0⟩,
         List.replicate 2 "solver failed") :=
  (solver_failure_contained (fun _ _ => Except.error "solver failed")
    (Calibrator.init.AddObservation 0 0 ⟨0, 0, 1⟩ ⟨0, 0⟩) "solver failed"
    (fun _ _ => rfl) (by decide)).2 2

/-- C9: `GetCamera` returns a copy — a caller-side mutation of the
returned value leaves the engine state (in particular the stored
intrinsics and extrinsic pose) unchanged — while `GetFrame` returns a
reference aliasing the stored frame pose, so a write through it
updates the engine's stored pose in place. -/
theorem GetCamera_copy_GetFrame_aliases (s : Calibrator) (c f : Nat)
    (hc : c < s.m_camera.length) (hf : f < s.m_T_kw.length) :
    (∀ g : CameraAndPose → CameraAndPose, (s.MutateCameraCopy c g).2 = s) ∧
    (∀ g : CameraAndPose → CameraAndPose,
      (s.MutateCameraCopy c g).2.readAddr (ParamAddr.camExtrinsic c)
          = s.readAddr (ParamAddr.camExtrinsic c) ∧
      (s.MutateCameraCopy c g).2.readAddr (ParamAddr.camIntrinsics c)
          = s.readAddr (ParamAddr.camIntrinsics c)) ∧
    (∀ v : SE3, (s.WriteFrameRef f v).m_T_kw = s.m_T_kw.set f v) ∧
    (∀ v : SE3, (s.WriteFrameRef f v).GetFrame f = v) := by
  refine ⟨fun g => rfl, fun g => ⟨rfl, rfl⟩, fun v => rfl, ?_⟩
  intro v
  simp [Calibrator.WriteFrameRef, Calibrator.GetFrame, List.getD, List.getElem?_set, hf]

/-- Helper: one `Rig::AddCamera` call (either overload) appends exactly
one entry to each collection. -/
theorem Rig.applyCall_fields (r : Rig) (c : RigCall) :
    (r.applyCall c).cameras_ = r.cameras_ ++ [c.cam] ∧
    (r.applyCall c).t_wc_ = r.t_wc_ ++ [c.pose] := by
  cases c with
  | viaPtr cam t => exact ⟨rfl, rfl⟩
  | viaRaw cam t => exact ⟨rfl, rfl⟩

/-- Helper: a sequence of `Rig::AddCamera` calls appends the called
cameras and poses in order. -/
theorem Rig.runCalls_fields (calls : List RigCall) : ∀ r : Rig,
    (r.runCalls calls).cameras_ = r.cameras_ ++ calls.map RigCall.cam ∧
    (r.runCalls calls).t_wc_ = r.t_wc_ ++ calls.map RigCall.pose := by
  induction calls with
  | nil => intro r; simp [Rig.runCalls]
  | cons c cs ih =>
      intro r
      obtain ⟨h1, h2⟩ := ih (r.applyCall c)
      obtain ⟨g1, g2⟩ := Rig.applyCall_fields r c
      constructor
      · rw [Rig.runCalls, h1, g1]
        simp
      · rw [Rig.runCalls, h2, g2]
        simp

/-- Helper: a sequence of `AddFrame`/`AddCamera` calls from any state
returns consecutive ids continuing from the current counts, and the
counts grow by the number of calls of each kind. -/
theorem runAdds_ids_counts (cs : List AddCall) : ∀ s : Calibrator,
    s.frameIds cs = List.range' s.NumFrames (countFrameCalls cs) ∧
    s.camIds cs = List.range' s.NumCameras (countCameraCalls cs) ∧
    (s.runAdds cs).NumFrames = s.NumFrames + countFrameCalls cs ∧
    (s.runAdds cs).NumCameras = s.NumCameras + countCameraCalls cs := by
  induction cs with
  | nil =>
      intro s
      simp [Calibrator.frameIds, Calibrator.camIds, Calibrator.runAdds,
        countFrameCalls, countCameraCalls]
  | cons c cs ih =>
      intro s
      cases c with
      | frame T =>
          obtain ⟨h1, h2, h3, h4⟩ := ih (s.AddFrame T).2
          have hn : (s.AddFrame T).2.NumFrames = s.NumFrames + 1 := by
            simp [Calibrator.AddFrame, Calibrator.NumFrames]
          have hm : (s.AddFrame T).2.NumCameras = s.NumCameras := rfl
          have hcf : countFrameCalls (AddCall.frame T :: cs)
              = countFrameCalls cs + 1 := by
            simp [countFrameCalls]
          have hcc : countCameraCalls (AddCall.frame T :: cs)
              = countCameraCalls cs := by
            simp [countCameraCalls]
          refine ⟨?_, ?_, ?_, ?_⟩
          · rw [Calibrator.frameIds, h1, hn, hcf, List.range'_succ]
            rfl
          · show (s.AddFrame T).2.camIds cs = _
            rw [h2, hm, hcc]
          · show ((s.AddFrame T).2.runAdds cs).NumFrames = _
            rw [h3, hn, hcf]
            omega
          · show ((s.AddFrame T).2.runAdds cs).NumCameras = _
            rw [h4, hm, hcc]
      | camera cam T =>
          obtain ⟨h1, h2, h3, h4⟩ := ih (s.AddCamera cam T).2
          have hn : (s.AddCamera cam T).2.NumCameras = s.NumCameras + 1 := by
            simp [Calibrator.AddCamera, Calibrator.NumCameras]
          have hm : (s.AddCamera cam T).2.NumFrames = s.NumFrames := rfl
          have hcf : countFrameCalls (AddCall.camera cam T :: cs)
              = countFrameCalls cs := by
            simp [countFrameCalls]
          have hcc : countCameraCalls (AddCall.camera cam T :: cs)
              = countCameraCalls cs + 1 := by
            simp [countCameraCalls]
          refine ⟨?_, ?_, ?_, ?_⟩
          · show (s.AddCamera cam T).2.frameIds cs = _
            rw [h1, hm, hcf]
          · rw [Calibrator.camIds, h2, hn, hcc, List.range'_succ]
            rfl
          · show ((s.AddCamera cam T).2.runAdds cs).NumFrames = _
            rw [h3, hm, hcf]
          · show ((s.AddCamera cam T).2.runAdds cs).NumCameras = _
            rw [h4, hn, hcc]
            omega

/-- Helper: with at least one camera, the constant-block list of the
built problem is exactly camera 0's extrinsic address. -/
theorem BuildProblem_constants_eq (s : Calibrator) (h : s.m_camera ≠ []) :
    s.BuildProblem.constants = [ParamAddr.camExtrinsic 0] := by
  obtain ⟨m, hm⟩ : ∃ m, s.m_camera.length = m + 1 := by
    have hlen : 0 < s.m_camera.length := List.length_pos.mpr h
    exact ⟨s.m_camera.length - 1, by omega⟩
  show (List.range s.m_camera.length).filterMap
      (fun c => if c = 0 then some (ParamAddr.camExtrinsic c) else none)
    = [ParamAddr.camExtrinsic 0]
  rw [hm, List.range_succ_eq_map, List.filterMap_cons]
  simp only [if_pos rfl]
  rw [List.filterMap_map]
  have hnone : (List.range m).filterMap
      ((fun c => if c = 0 then some (ParamAddr.camExtrinsic c) else none) ∘ Nat.succ)
    = [] := by
    apply List.filterMap_eq_nil_iff.mpr
    intro a _
    simp [Function.comp]
  rw [hnone]
  simp

/-- Helper: every camera extrinsic is registered as a 7-dimensional
manifold-parameterized block. -/
theorem BuildProblem_blocks_cam (s : Calibrator) (c : Nat)
    (hc : c < s.m_camera.length) :
    (⟨ParamAddr.camExtrinsic c, 7, true⟩ : ParamBlock) ∈ s.BuildProblem.blocks := by
  show _ ∈ (List.range s.m_camera.length).map
      (fun c => (⟨ParamAddr.camExtrinsic c, 7, true⟩ : ParamBlock))
    ++ (List.range s.m_T_kw.length).map
      (fun p => (⟨ParamAddr.framePose p, 7, true⟩ : ParamBlock))
  apply List.mem_append_left
  exact List.mem_map.mpr ⟨c, List.mem_range.mpr hc, rfl⟩

/-- Helper: every frame pose is registered as a 7-dimensional
manifold-parameterized block. -/
theorem BuildProblem_blocks_frame (s : Calibrator) (p : Nat)
    (hp : p < s.m_T_kw.length) :
    (⟨ParamAddr.framePose p, 7, true⟩ : ParamBlock) ∈ s.BuildProblem.blocks := by
  show _ ∈ (List.range s.m_camera.length).map
      (fun c => (⟨ParamAddr.camExtrinsic c, 7, true⟩ : ParamBlock))
    ++ (List.range s.m_T_kw.length).map
      (fun q => (⟨ParamAddr.framePose q, 7, true⟩ : ParamBlock))
  apply List.mem_append_right
  exact List.mem_map.mpr ⟨p, List.mem_range.mpr hp, rfl⟩

/-- Helper: under the solver-boundary contract, any number of loop
iterations preserves the collection sizes and, when a camera exists,
the value stored at camera 0's extrinsic address. -/
theorem RunLoop_preserves (solve : Problem → Calibrator → Calibrator)
    (hs : SolverContract solve) :
    ∀ (n : Nat) (s : Calibrator),
      (RunLoop solve n s).m_camera.length = s.m_camera.length ∧
      (RunLoop solve n s).m_T_kw.length = s.m_T_kw.length ∧
      (s.m_camera ≠ [] →
        (RunLoop solve n s).readAddr (ParamAddr.camExtrinsic 0)
          = s.readAddr (ParamAddr.camExtrinsic 0)) := by
  intro n
  induction n with
  | zero => exact fun s => ⟨rfl, rfl, fun _ => rfl⟩
  | succ n ih =>
      intro s
      by_cases h : 0 < s.BuildProblem.NumResiduals
      · have hL : (LoopIter solve s).1 = solve s.BuildProblem s := by
          simp [LoopIter, h]
        have hstep := hs s.BuildProblem s
        obtain ⟨hc, hf, hconst⟩ := hstep
        obtain ⟨ic, itk, ir⟩ := ih (solve s.BuildProblem s)
        rw [RunLoop, hL]
        refine ⟨by rw [ic, hc], by rw [itk, hf], ?_⟩
        intro hne
        have hne2 : (solve s.BuildProblem s).m_camera ≠ [] := by
          intro hnil
          rw [hnil] at hc
          have : s.m_camera.length = 0 := hc.symm
          exact hne (List.length_eq_zero.mp this)
        rw [ir hne2]
        exact hconst _ (by rw [BuildProblem_constants_eq s hne]; exact List.mem_singleton.mpr rfl)
      · have hL : (LoopIter solve s).1 = s := by
          simp [LoopIter, h]
        rw [RunLoop, hL]
        exact ih s

/-- C2: in every iteration of the background solve loop the built
problem marks camera 0's extrinsic block — and only that block —
constant, while every other camera extrinsic and every frame pose is
registered as a free manifold-parameterized block; consequently, for
any solver honouring the constant-block contract, camera 0's extrinsic
pose after any number of iterations equals its value at construction. -/
theorem gauge_fixes_exactly_camera_zero
    (solve : Problem → Calibrator → Calibrator) (s : Calibrator)
    (hs : SolverContract solve) (hcam : s.m_camera ≠ []) :
    s.BuildProblem.constants = [ParamAddr.camExtrinsic 0] ∧
    (∀ c, 0 < c → ParamAddr.camExtrinsic c ∉ s.BuildProblem.constants) ∧
    (∀ p, ParamAddr.framePose p ∉ s.BuildProblem.constants) ∧
    (∀ c, c < s.m_camera.length →
      (⟨ParamAddr.camExtrinsic c, 7, true⟩ : ParamBlock) ∈ s.BuildProblem.blocks) ∧
    (∀ p, p < s.m_T_kw.length →
      (⟨ParamAddr.framePose p, 7, true⟩ : ParamBlock) ∈ s.BuildProblem.blocks) ∧
    (∀ n, (RunLoop solve n s).readAddr (ParamAddr.camExtrinsic 0)
        = s.readAddr (ParamAddr.camExtrinsic 0)) ∧
    (∀ n, (RunLoop solve n s).BuildProblem.constants = [ParamAddr.camExtrinsic 0]) := by
  have hconsts := BuildProblem_constants_eq s hcam
  refine ⟨hconsts, ?_, ?_, BuildProblem_blocks_cam s, BuildProblem_blocks_frame s, ?_, ?_⟩
  · intro c hc hmem
    rw [hconsts] at hmem
    have : ParamAddr.camExtrinsic c = ParamAddr.camExtrinsic 0 :=
      List.mem_singleton.mp hmem
    have : c = 0 := by injection this
    omega
  · intro p hmem
    rw [hconsts] at hmem
    exact absurd (List.mem_singleton.mp hmem) (by intro h; injection h)
  · intro n
    exact (RunLoop_preserves solve hs n s).2.2 hcam
  · intro n
    obtain ⟨hc, _, _⟩ := RunLoop_preserves solve hs n s
    apply BuildProblem_constants_eq
    intro hnil
    rw [hnil] at hc
    exact hcam (List.length_eq_zero.mp hc.symm)

/-- Witness for C2: identity solver (which satisfies the contract) on
an engine with one camera; after 3 iterations camera 0's extrinsic
reads back its construction value. -/
theorem gauge_fixes_exactly_camera_zero_witness :
    (RunLoop (fun _ st => st) 3 (Calibrator.init.AddCamera [] SE3.one).2).readAddr
        (ParamAddr.camExtrinsic 0)
      = (Calibrator.init.AddCamera [] SE3.one).2.readAddr (ParamAddr.camExtrinsic 0) :=
  (gauge_fixes_exactly_camera_zero (fun _ st => st)
    (Calibrator.init.AddCamera [] SE3.one).2
    (fun _ _ => ⟨rfl, rfl, fun _ _ => rfl⟩) (by decide)).2.2.2.2.2.1 3

/-- C4: starting from a fresh engine, the ids returned by `AddFrame`
are `0, 1, 2, ...` in call order, the ids returned by `AddCamera` are
independently `0, 1, 2, ...` in call order, and after every prefix of
the call sequence `NumFrames`/`NumCameras` equal the number of
`AddFrame`/`AddCamera` calls made so far. -/
theorem add_ids_sequential_counts (calls : List AddCall) :
    Calibrator.init.frameIds calls = List.range (countFrameCalls calls) ∧
    Calibrator.init.camIds calls = List.range (countCameraCalls calls) ∧
    (∀ pre suf, calls = pre ++ suf →
      (Calibrator.init.runAdds pre).NumFrames = countFrameCalls pre ∧
      (Calibrator.init.runAdds pre).NumCameras = countCameraCalls pre) := by
  obtain ⟨h1, h2, _, _⟩ := runAdds_ids_counts calls Calibrator.init
  refine ⟨?_, ?_, ?_⟩
  · rw [h1, List.range_eq_range']
    rfl
  · rw [h2, List.range_eq_range']
    rfl
  · intro pre suf _
    obtain ⟨_, _, h3, h4⟩ := runAdds_ids_counts pre Calibrator.init
    exact ⟨by rw [h3]; exact Nat.zero_add _, by rw [h4]; exact Nat.zero_add _⟩

/-- Witness for C4: the sequence frame, camera, frame, camera, camera
returns frame ids [0, 1] and camera ids [0, 1, 2], with matching
counts after the two-call prefix. -/
theorem add_ids_sequential_counts_witness :
    Calibrator.init.frameIds
        [AddCall.frame SE3.one, AddCall.camera [] SE3.one, AddCall.frame SE3.one,
         AddCall.camera [1] SE3.one, AddCall.camera [2] SE3.one]
      = [0, 1] ∧
    Calibrator.init.camIds
        [AddCall.frame SE3.one, AddCall.camera [] SE3.one, AddCall.frame SE3.one,
         AddCall.camera [1] SE3.one, AddCall.camera [2] SE3.one]
      = [0, 1, 2] ∧
    (Calibrator.init.runAdds
        [AddCall.frame SE3.one, AddCall.camera [] SE3.one]).NumFrames = 1 := by
  obtain ⟨h1, h2, h3⟩ := add_ids_sequential_counts
    [AddCall.frame SE3.one, AddCall.camera [] SE3.one, AddCall.frame SE3.one,
     AddCall.camera [1] SE3.one, AddCall.camera [2] SE3.one]
  refine ⟨by rw [h1]; rfl, by rw [h2]; rfl, ?_⟩
  have := (h3 [AddCall.frame SE3.one, AddCall.camera [] SE3.one]
    [AddCall.frame SE3.one, AddCall.camera [1] SE3.one, AddCall.camera [2] SE3.one]
    rfl).1
  rw [this]
  rfl

/-- C10: every `Rig::AddCamera` call (either overload) appends exactly
one camera and one mounting pose; over any call sequence the two
collections hold exactly the called cameras and poses in call order —
so they always have equal length and the i-th camera is paired with
the i-th mounting pose. -/
theorem rig_collections_parallel (calls : List RigCall) :
    (Rig.empty.runCalls calls).cameras_ = calls.map RigCall.cam ∧
    (Rig.empty.runCalls calls).t_wc_ = calls.map RigCall.pose ∧
    (Rig.empty.runCalls calls).cameras_.length
        = (Rig.empty.runCalls calls).t_wc_.length ∧
    (∀ i, i < calls.length →
      (Rig.empty.runCalls calls).cameras_.get? i = (calls.get? i).map RigCall.cam ∧
      (Rig.empty.runCalls calls).t_wc_.get? i = (calls.get? i).map RigCall.pose) ∧
    (∀ (r : Rig) (c : RigCall),
      (r.applyCall c).cameras_ = r.cameras_ ++ [c.cam] ∧
      (r.applyCall c).t_wc_ = r.t_wc_ ++ [c.pose]) := by
  obtain ⟨h1, h2⟩ := Rig.runCalls_fields calls Rig.empty
  have h1e : (Rig.empty.runCalls calls).cameras_ = calls.map RigCall.cam := by
    rw [h1]; rfl
  have h2e : (Rig.empty.runCalls calls).t_wc_ = calls.map RigCall.pose := by
    rw [h2]; rfl
  refine ⟨h1e, h2e, ?_, ?_, Rig.applyCall_fields⟩
  · rw [h1e, h2e]
    simp
  · intro i _
    rw [h1e, h2e]
    simp

/-- Witness for C10: two calls, one per overload; the second added pose
is paired at index 1, and the pose collection lists the poses in call
order. -/
theorem rig_collections_parallel_witness :
    (Rig.empty.runCalls
        [RigCall.viaPtr ⟨fun _ => ⟨0, 0⟩, fun _ => ⟨0, 0, 1⟩, fun _ => ⟨0, 0, 0, 0, 0, 0⟩⟩
            SE3.one,
         RigCall.viaRaw ⟨fun _ => ⟨0, 0⟩, fun _ => ⟨0, 0, 1⟩, fun _ => ⟨0, 0, 0, 0, 0, 0⟩⟩
            ⟨Mat3.one, ⟨1, 0, 0⟩⟩]).t_wc_.get? 1
      = some ⟨Mat3.one, ⟨1, 0, 0⟩⟩ :=
  ((rig_collections_parallel
    [RigCall.viaPtr ⟨fun _ => ⟨0, 0⟩, fun _ => ⟨0, 0, 1⟩, fun _ => ⟨0, 0, 0, 0, 0, 0⟩⟩
        SE3.one,
     RigCall.viaRaw ⟨fun _ => ⟨0, 0⟩, fun _ => ⟨0, 0, 1⟩, fun _ => ⟨0, 0, 0, 0, 0, 0⟩⟩
        ⟨Mat3.one, ⟨1, 0, 0⟩⟩]).2.2.2.1 1 (by norm_num)).2.trans rfl

/-- Witness for C9: an engine with one camera and one frame; mutating
the copied camera leaves the state intact, and writing through the
frame reference changes the stored frame. -/
theorem GetCamera_copy_GetFrame_aliases_witness :
    ((((Calibrator.init.AddFrame SE3.one).2.AddCamera [] SE3.one).2.MutateCameraCopy
        0 (fun _ => ⟨[1], SE3.one⟩)).2
      = ((Calibrator.init.AddFrame SE3.one).2.AddCamera [] SE3.one).2) ∧
    ((((Calibrator.init.AddFrame SE3.one).2.AddCamera [] SE3.one).2.WriteFrameRef
        0 ⟨Mat3.one, ⟨1, 2, 3⟩⟩).GetFrame 0 = ⟨Mat3.one, ⟨1, 2, 3⟩⟩) :=
  ⟨(GetCamera_copy_GetFrame_aliases
      ((Calibrator.init.AddFrame SE3.one).2.AddCamera [] SE3.one).2 0 0
      (by decide) (by decide)).1 (fun _ => ⟨[1], SE3.one⟩),
   (GetCamera_copy_GetFrame_aliases
      ((Calibrator.init.AddFrame SE3.one).2.AddCamera [] SE3.one).2 0 0
      (by decide) (by decide)).2.2.2 ⟨Mat3.one, ⟨1, 2, 3⟩⟩⟩

end Calibu
